import Mathlib

/-!
Shallow embedding of the pqc-vs-secoc DoS-evaluation harness.

Byte strings are modelled as `List Nat` (the receivers never range-check
byte values), machine integers as `Nat`/`Int`, and the Python floats used
for CPU percentages, probabilities and latencies as `ℚ`.  External
cryptographic primitives (HMAC-SHA-256, SHA-256 fingerprints, Dilithium2
verification) are opaque pure functions, taken as parameters: every claim
below depends only on their determinism, never on their internals.
-/

namespace DosEval

/-- Byte strings on the wire. -/
abbrev Bytes := List Nat

/-- `int.from_bytes(bs, "big")` / `struct.unpack(">Q", bs)`: big-endian
interpretation of a byte string. -/
def fromBytesBE (bs : Bytes) : Nat :=
  bs.foldl (fun a b => a * 256 + b) 0

/-- `n.to_bytes(2, "big")`: the two-byte big-endian encoding of `n`
(defined for `n < 65536`; Python raises `OverflowError` above that). -/
def toBytesBE2 (n : Nat) : Bytes :=
  [n / 256 % 256, n % 256]

/-! ## PQC receiver: pre-admission gate (`receiver_pqc.handle_connection`) -/

/-- `CPU_LIMIT = 85.0` in `receiver_pqc.py`. -/
def CPU_LIMIT : ℚ := 85.0

/-- `DROP_PROB_BASE = 0.1` in `receiver_pqc.py`. -/
def DROP_PROB_BASE : ℚ := 0.1

/-- `MSG_QUEUE = queue.Queue(maxsize=500)` in `receiver_pqc.py`. -/
def MSG_QUEUE_MAXSIZE : Nat := 500

/-- The boolean condition `cpu > CPU_LIMIT or random.random() < DROP_PROB_BASE`
at line 124 of `receiver_pqc.py`, deciding whether the freshly read envelope
is dropped before being enqueued. -/
def pqcPreAdmissionDrop (cpu rand : ℚ) : Bool :=
  decide (CPU_LIMIT < cpu) || decide (rand < DROP_PROB_BASE)

/-- What the PQC connection handler does with an envelope whose read
completed, as a function of the observed CPU percentage, the uniform
draw, and the current queue length. -/
inductive PqcConnOutcome
  | dropped
  | queueFull
  | enqueued
  deriving DecidableEq, Repr

/-- Tail of `receiver_pqc.handle_connection` (lines 122-131): the
pre-admission check followed by `MSG_QUEUE.put_nowait`, which raises
`queue.Full` exactly when the queue already holds `maxsize` items. -/
def pqcHandleConnection (cpu rand : ℚ) (queueLen : Nat) : PqcConnOutcome :=
  if pqcPreAdmissionDrop cpu rand then .dropped
  else if MSG_QUEUE_MAXSIZE ≤ queueLen then .queueFull
  else .enqueued

/-! ## SECOC receiver: overload drop probability (`secoc_receiver_tcp.compute_drop_prob`) -/

/-- `CPU_SCALE = 120.0` in `secoc_receiver_tcp.py`. -/
def CPU_SCALE : ℚ := 120.0

/-- `MAX_DROP_PROB = 0.85` in `secoc_receiver_tcp.py`. -/
def MAX_DROP_PROB : ℚ := 0.85

/-- `compute_drop_prob` (lines 71-78 of `secoc_receiver_tcp.py`):
`prob = min(MAX_DROP_PROB, cpu / CPU_SCALE)`. -/
def compute_drop_prob (cpu : ℚ) : ℚ :=
  min MAX_DROP_PROB (cpu / CPU_SCALE)

/-! ## C1: the PQC pre-admission CPU threshold is strict -/

/-- C1: the claim says CPU at or above 85.0 always drops regardless of the
random draw; but at CPU exactly 85.0 with a draw of 1/2 the envelope is
enqueued, because the code tests `cpu > CPU_LIMIT` strictly. -/
theorem c1_cpu_threshold_counterexample :
    (85.0 : ℚ) ≤ 85.0 ∧
      pqcHandleConnection 85.0 (1/2) 0 = .enqueued ∧
      pqcHandleConnection 85.0 (1/2) 0 ≠ .dropped := by
  have hgate : pqcPreAdmissionDrop 85.0 (1/2) = false := by
    unfold pqcPreAdmissionDrop CPU_LIMIT DROP_PROB_BASE
    norm_num
  rw [one_div] at hgate
  refine ⟨le_refl _, ?_, ?_⟩ <;>
    simp [pqcHandleConnection, hgate, MSG_QUEUE_MAXSIZE]

/-- C1 (amended): for every envelope whose read completed, if the observed
host CPU percentage is strictly above 85.0 then the message is dropped (not
enqueued) regardless of the value of the uniform random draw. -/
theorem c1_cpu_above_limit_always_drops (cpu rand : ℚ) (q : Nat)
    (hcpu : 85.0 < cpu) :
    pqcHandleConnection cpu rand q = .dropped := by
  have hdrop : pqcPreAdmissionDrop cpu rand = true := by
    unfold pqcPreAdmissionDrop CPU_LIMIT
    simp [hcpu]
  unfold pqcHandleConnection
  simp [hdrop]

/-- Witness for C1 (amended) at CPU = 90, draw = 1/2, empty queue. -/
theorem c1_cpu_above_limit_always_drops_witness :
    (85.0 : ℚ) < 90 ∧ pqcHandleConnection 90 (1/2) 0 = .dropped :=
  ⟨by norm_num, c1_cpu_above_limit_always_drops 90 (1/2) 0 (by norm_num)⟩

/-! ## C4: SECOC drop probability formula, monotonicity, cap -/

/-- C4: the SECOC receiver's drop probability equals
`min(0.85, cpu / 120.0)` for every nonnegative CPU percentage, is
monotonically non-decreasing in the CPU percentage, and equals the 0.85
cap exactly for every CPU percentage at or above 102. -/
theorem c4_compute_drop_prob_spec :
    (∀ cpu : ℚ, 0 ≤ cpu → compute_drop_prob cpu = min 0.85 (cpu / 120.0)) ∧
    (∀ c1 c2 : ℚ, 0 ≤ c1 → c1 ≤ c2 →
      compute_drop_prob c1 ≤ compute_drop_prob c2) ∧
    (∀ cpu : ℚ, 102 ≤ cpu → compute_drop_prob cpu = 0.85) := by
  refine ⟨fun cpu _ => rfl, fun c1 c2 _ h12 => ?_, fun cpu hcpu => ?_⟩
  · unfold compute_drop_prob
    refine min_le_min le_rfl ?_
    have h120 : (0 : ℚ) < CPU_SCALE := by norm_num [CPU_SCALE]
    exact (div_le_div_iff_of_pos_right h120).mpr h12
  · unfold compute_drop_prob MAX_DROP_PROB CPU_SCALE
    rw [min_eq_left]
    rw [le_div_iff₀ (by norm_num)]
    linarith

/-- Witness for C4 at cpu = 0 (formula part), 0 ≤ 60 (monotonicity part),
and cpu = 102 (cap part). -/
theorem c4_compute_drop_prob_spec_witness :
    compute_drop_prob 0 = min 0.85 (0 / 120.0) ∧
      compute_drop_prob 0 ≤ compute_drop_prob 60 ∧
      compute_drop_prob 102 = 0.85 :=
  ⟨c4_compute_drop_prob_spec.1 0 le_rfl,
   c4_compute_drop_prob_spec.2.1 0 60 le_rfl (by norm_num),
   c4_compute_drop_prob_spec.2.2 102 le_rfl⟩

/-! ## SECOC receiver: replay cache (`secoc_receiver_tcp.record_replay`) -/

/-- `REPLAY_CACHE_SIZE = 1024` in `secoc_receiver_tcp.py`. -/
def REPLAY_CACHE_SIZE : Nat := 1024

/-- The SECOC receiver's replay state: `REPLAY_CACHE` (a
`collections.deque(maxlen=1024)`, oldest fingerprint first) and
`REPLAY_SET` (the set of the same fingerprints). -/
structure SecocState where
  cache : List Nat
  rset : Finset Nat

/-- `REPLAY_CACHE.append(x)` on a deque with `maxlen = REPLAY_CACHE_SIZE`:
appends on the right, silently discarding the leftmost element when the
deque is already at its maximum length. -/
def dequeAppend (d : List Nat) (x : Nat) : List Nat :=
  if d.length = REPLAY_CACHE_SIZE then d.tail ++ [x] else d ++ [x]

/-- `record_replay` (lines 59-68 of `secoc_receiver_tcp.py`): returns
whether the fingerprint was new, evicting the oldest cached fingerprint
first when the set is at capacity. -/
def record_replay (st : SecocState) (msg_hash : Nat) : Bool × SecocState :=
  if msg_hash ∈ st.rset then (false, st)
  else
    let st1 :=
      if REPLAY_CACHE_SIZE ≤ st.rset.card then
        { cache := st.cache.tail, rset := st.rset.erase st.cache.headI }
      else st
    (true, { cache := dequeAppend st1.cache msg_hash,
             rset := insert msg_hash st1.rset })

/-! ## SECOC receiver: per-connection pipeline (`secoc_receiver_tcp.handle_connection`) -/

/-- `FRESHNESS_MAX_AGE = 5` in `secoc_receiver_tcp.py`. -/
def FRESHNESS_MAX_AGE : ℤ := 5

/-- `FRESHNESS_FUTURE_TOL = 5` in `secoc_receiver_tcp.py`. -/
def FRESHNESS_FUTURE_TOL : ℤ := 5

/-- Fate of a SECOC envelope whose framed read completed. -/
inductive SecocOutcome
  | tooShort
  | staleDrop
  | futureDrop
  | hmacMismatch
  | replayDrop
  | overloadDrop
  | unpackError
  | accepted
  deriving DecidableEq, Repr

/-- `handle_connection` of `secoc_receiver_tcp.py` after the framed read
(lines 100-157).  `hmacFull` stands for
`hmac.new(SECRET_KEY, -, hashlib.sha256).digest()` and `fp` for the
replay fingerprint `sha256(-).hexdigest()[:32]`; both are opaque pure
functions.  `now` is `int(time.time())`, `cpu` the sampled CPU
percentage and `rand` the uniform draw of the overload gate.  The
`struct.unpack(">Q", freshness)` call cannot fail because the length
check guarantees `freshness` is exactly 8 bytes; the final
`struct.unpack(PAYLOAD_FMT, structured_payload)` requires exactly 48
bytes. -/
def secocHandle (hmacFull : Bytes → Bytes) (fp : Bytes → Nat)
    (st : SecocState) (now : ℤ) (cpu rand : ℚ) (message tag : Bytes) :
    SecocOutcome × SecocState :=
  if message.length < 56 then (.tooShort, st)
  else
    let structured_payload := message.take (message.length - 8)
    let freshness := message.drop (message.length - 8)
    let ts : ℤ := (fromBytesBE freshness : ℤ)
    if FRESHNESS_MAX_AGE < now - ts then (.staleDrop, st)
    else if FRESHNESS_FUTURE_TOL < ts - now then (.futureDrop, st)
    else
      let calc_tag := (hmacFull (structured_payload ++ freshness)).take tag.length
      if calc_tag ≠ tag then (.hmacMismatch, st)
      else
        let msg_hash := fp (structured_payload ++ freshness ++ tag)
        if msg_hash ∈ st.rset then (.replayDrop, st)
        else
          let st2 := (record_replay st msg_hash).2
          if rand < compute_drop_prob cpu then (.overloadDrop, st2)
          else if structured_payload.length = 48 then (.accepted, st2)
          else (.unpackError, st2)

/-! ## PQC receiver: worker pipeline (`receiver_pqc.handle_message`) -/

/-- `MAX_HASHES = 2048` in `receiver_pqc.py`. -/
def MAX_HASHES : Nat := 2048

/-- `SEEN_HASHES.add(h)` followed by
`if len(SEEN_HASHES) > MAX_HASHES: SEEN_HASHES.pop()` (lines 62-64 of
`receiver_pqc.py`).  Python's `set.pop` removes an arbitrary member; the
removed element is the `victim` parameter, constrained to be a member at
the call sites that model real executions. -/
def pqcRecordHash (seen : Finset Nat) (msg_hash : Nat) (victim : Nat) :
    Finset Nat :=
  if MAX_HASHES < (insert msg_hash seen).card then
    (insert msg_hash seen).erase victim
  else insert msg_hash seen

/-- Fate of a PQC envelope inside the worker's `handle_message`. -/
inductive PqcMsgOutcome
  | badFreshness
  | staleDrop
  | replayDrop
  | sigFail
  | verified
  deriving DecidableEq, Repr

/-- `handle_message` of `receiver_pqc.py` (lines 42-85).  `verify` stands
for the Dilithium2 `verifier.verify` call and `fpq` for
`sha256(message + signature).hexdigest()`, both opaque pure functions.
`message[-8:]` has fewer than 8 bytes exactly when the message itself
does, making `struct.unpack(">Q", -)` fail. -/
def pqcHandleMessage (verify : Bytes → Bytes → Bytes → Bool)
    (fpq : Bytes → Nat) (seen : Finset Nat) (now : ℤ) (victim : Nat)
    (message signature public_key : Bytes) : PqcMsgOutcome × Finset Nat :=
  let freshness := message.drop (message.length - 8)
  if freshness.length ≠ 8 then (.badFreshness, seen)
  else
    let ts : ℤ := (fromBytesBE freshness : ℤ)
    if 30 < |now - ts| then (.staleDrop, seen)
    else
      let msg_hash := fpq (message ++ signature)
      if msg_hash ∈ seen then (.replayDrop, seen)
      else
        let seen2 := pqcRecordHash seen msg_hash victim
        if verify message signature public_key then (.verified, seen2)
        else (.sigFail, seen2)

/-! ## C5: freshness boundaries -/

/-- C5: a message is not dropped for freshness by the SECOC receiver
exactly when `now - ts ≤ 5` and `ts - now ≤ 5`, and not dropped for
freshness by the PQC worker exactly when `|now - ts| ≤ 30`. -/
theorem c5_freshness_boundaries
    (hmacFull : Bytes → Bytes) (fp : Bytes → Nat)
    (verify : Bytes → Bytes → Bytes → Bool) (fpq : Bytes → Nat)
    (st : SecocState) (seen : Finset Nat) (now : ℤ) (cpu rand : ℚ)
    (victim : Nat) (msgS tag msgP signature public_key : Bytes)
    (hS : 56 ≤ msgS.length) (hP : 8 ≤ msgP.length) :
    (((secocHandle hmacFull fp st now cpu rand msgS tag).1 ≠ .staleDrop ∧
      (secocHandle hmacFull fp st now cpu rand msgS tag).1 ≠ .futureDrop) ↔
      (now - (fromBytesBE (msgS.drop (msgS.length - 8)) : ℤ) ≤ 5 ∧
       (fromBytesBE (msgS.drop (msgS.length - 8)) : ℤ) - now ≤ 5)) ∧
    (((pqcHandleMessage verify fpq seen now victim msgP signature
        public_key).1 ≠ .staleDrop) ↔
      |now - (fromBytesBE (msgP.drop (msgP.length - 8)) : ℤ)| ≤ 30) := by
  constructor
  · have hnotshort : ¬ msgS.length < 56 := by omega
    simp only [secocHandle, hnotshort, if_false, FRESHNESS_MAX_AGE,
      FRESHNESS_FUTURE_TOL]
    split_ifs <;> simp_all <;> omega
  · have hlen : (msgP.drop (msgP.length - 8)).length = 8 := by
      rw [List.length_drop]; omega
    simp only [pqcHandleMessage, hlen]
    split_ifs <;> simp_all

/-- Witness for C5 at the all-zero 56-byte message, `now = 0`. -/
theorem c5_freshness_boundaries_witness :
    (56 ≤ (List.replicate 56 0 : Bytes).length) ∧
    ((((secocHandle (fun _ => []) (fun _ => 0) ⟨[], ∅⟩ 0 0 0
          (List.replicate 56 0) []).1 ≠ .staleDrop ∧
       (secocHandle (fun _ => []) (fun _ => 0) ⟨[], ∅⟩ 0 0 0
          (List.replicate 56 0) []).1 ≠ .futureDrop) ↔
       (0 - (fromBytesBE ((List.replicate 56 0 : Bytes).drop
            ((List.replicate 56 0 : Bytes).length - 8)) : ℤ) ≤ 5 ∧
        (fromBytesBE ((List.replicate 56 0 : Bytes).drop
            ((List.replicate 56 0 : Bytes).length - 8)) : ℤ) - 0 ≤ 5)) ∧
     (((pqcHandleMessage (fun _ _ _ => true) (fun _ => 0) ∅ 0 0
          (List.replicate 56 0) [] []).1 ≠ .staleDrop) ↔
       |0 - (fromBytesBE ((List.replicate 56 0 : Bytes).drop
            ((List.replicate 56 0 : Bytes).length - 8)) : ℤ)| ≤ 30)) :=
  ⟨by simp,
   c5_freshness_boundaries (fun _ => []) (fun _ => 0) (fun _ _ _ => true)
     (fun _ => 0) ⟨[], ∅⟩ ∅ 0 0 0 0 (List.replicate 56 0) []
     (List.replicate 56 0) [] [] (by simp) (by simp)⟩

/-! ## C6: replay-cache bounds and eviction order -/

/-- Auxiliary: one PQC cache step keeps the fingerprint set within
`MAX_HASHES` whenever the popped victim is a genuine member. -/
theorem pqcRecordHash_card_le (seen : Finset Nat) (msg_hash victim : Nat)
    (hv : victim ∈ insert msg_hash seen) (hcard : seen.card ≤ MAX_HASHES) :
    (pqcRecordHash seen msg_hash victim).card ≤ MAX_HASHES := by
  unfold pqcRecordHash
  have hins : (insert msg_hash seen).card ≤ seen.card + 1 :=
    Finset.card_insert_le _ _
  split_ifs with hgt
  · rw [Finset.card_erase_of_mem hv]
    omega
  · omega

/-- C6: the SECOC receiver's `record_replay` keeps at most 1024
fingerprints and, at capacity, evicts exactly the oldest one (strict
FIFO); the PQC worker's cache holds at most 2048 fingerprints after
every completed `handle_message`. -/
theorem c6_replay_cache_bounds :
    (∀ (st : SecocState) (h : Nat),
      st.rset = st.cache.toFinset → st.cache.Nodup →
      st.cache.length ≤ REPLAY_CACHE_SIZE →
      (record_replay st h).2.cache.length ≤ REPLAY_CACHE_SIZE ∧
      (h ∉ st.rset → st.cache.length = REPLAY_CACHE_SIZE →
        (record_replay st h).2.cache = st.cache.tail ++ [h])) ∧
    (∀ (verify : Bytes → Bytes → Bytes → Bool) (fpq : Bytes → Nat)
      (seen : Finset Nat) (now : ℤ) (victim : Nat)
      (message signature public_key : Bytes),
      victim ∈ insert (fpq (message ++ signature)) seen →
      seen.card ≤ MAX_HASHES →
      (pqcHandleMessage verify fpq seen now victim message signature
        public_key).2.card ≤ MAX_HASHES) := by
  constructor
  · intro st h hsync hnodup hlen
    have hcard : st.rset.card = st.cache.length := by
      rw [hsync, List.toFinset_card_of_nodup hnodup]
    unfold record_replay
    by_cases hmem : h ∈ st.rset
    · simp [hmem, hlen]
    · simp only [hmem, if_false, dequeAppend]
      by_cases hfull : st.cache.length = REPLAY_CACHE_SIZE
      · have hge : REPLAY_CACHE_SIZE ≤ st.rset.card := by omega
        have htail : st.cache.tail.length = REPLAY_CACHE_SIZE - 1 := by
          rw [List.length_tail, hfull]
        simp only [hge, if_true, htail]
        have hne : ¬ (REPLAY_CACHE_SIZE - 1 = REPLAY_CACHE_SIZE) := by
          unfold REPLAY_CACHE_SIZE; omega
        constructor
        · simp only [hne, if_false, List.length_append, htail,
            List.length_singleton]
          unfold REPLAY_CACHE_SIZE at *; omega
        · intro _ _; simp [hne]
      · have hlt : ¬ (REPLAY_CACHE_SIZE ≤ st.rset.card) := by omega
        simp only [hlt, if_false, hfull, List.length_append]
        constructor
        · simp only [List.length_singleton]; omega
        · intro _ hcontra; exact hcontra.elim
  · intro verify fpq seen now victim message signature public_key hv hcard
    unfold pqcHandleMessage
    dsimp only
    split_ifs <;> dsimp only <;>
      first
        | exact hcard
        | exact pqcRecordHash_card_le seen _ victim hv hcard

set_option maxRecDepth 4096 in
/-- Witness for C6: a full 1024-entry SECOC cache evicting its oldest
entry, and an empty PQC cache absorbing one fingerprint. -/
theorem c6_replay_cache_bounds_witness :
    ((List.range 1024).Nodup ∧ (List.range 1024).length ≤ REPLAY_CACHE_SIZE ∧
      (5000 : Nat) ∉ (List.range 1024).toFinset) ∧
    (record_replay ⟨List.range 1024, (List.range 1024).toFinset⟩
        5000).2.cache.length ≤ REPLAY_CACHE_SIZE ∧
    (record_replay ⟨List.range 1024, (List.range 1024).toFinset⟩
        5000).2.cache = (List.range 1024).tail ++ [5000] ∧
    (pqcHandleMessage (fun _ _ _ => true) (fun _ => 0) ∅ 0 0 [] []
        []).2.card ≤ MAX_HASHES := by
  have hnodup : (List.range 1024).Nodup := List.nodup_range 1024
  have hfull : (List.range 1024).length = REPLAY_CACHE_SIZE := by
    rw [List.length_range]; rfl
  have hlen : (List.range 1024).length ≤ REPLAY_CACHE_SIZE := le_of_eq hfull
  have hmem : (5000 : Nat) ∉ (List.range 1024).toFinset := by
    simp only [List.mem_toFinset, List.mem_range]; omega
  have H := c6_replay_cache_bounds.1
    ⟨List.range 1024, (List.range 1024).toFinset⟩ 5000 rfl hnodup hlen
  have HP := c6_replay_cache_bounds.2 (fun _ _ _ => true) (fun _ => 0) ∅ 0 0
    [] [] [] (Finset.mem_insert_self _ _) (by simp [MAX_HASHES])
  exact ⟨⟨hnodup, hlen, hmem⟩, H.1, H.2 hmem hfull, HP⟩

/-! ## Full per-envelope PQC processing (connection handler, then worker) -/

/-- Fate of one PQC envelope processed end to end: pre-admission gate in
`handle_connection`, then (if enqueued) the worker's `handle_message`. -/
inductive PqcResult
  | preDropped
  | queueDropped
  | workerDropped
  | accepted
  deriving DecidableEq, Repr

/-- Sequential composition of `receiver_pqc.handle_connection`
(post-read) and the worker's `handle_message` on the enqueued envelope:
the per-envelope pipeline of the PQC receiver. -/
def pqcProcess (verify : Bytes → Bytes → Bytes → Bool) (fpq : Bytes → Nat)
    (seen : Finset Nat) (now : ℤ) (cpu rand : ℚ) (queueLen : Nat)
    (victim : Nat) (message signature public_key : Bytes) :
    PqcResult × Finset Nat :=
  match pqcHandleConnection cpu rand queueLen with
  | .dropped => (.preDropped, seen)
  | .queueFull => (.queueDropped, seen)
  | .enqueued =>
    match pqcHandleMessage verify fpq seen now victim message signature
        public_key with
    | (.verified, s2) => (.accepted, s2)
    | (.badFreshness, s2) => (.workerDropped, s2)
    | (.staleDrop, s2) => (.workerDropped, s2)
    | (.replayDrop, s2) => (.workerDropped, s2)
    | (.sigFail, s2) => (.workerDropped, s2)

/-! ## Helper lemmas: runs of valid envelopes -/

/-- A well-formed, fresh, correctly tagged, unseen SECOC envelope reaches
the overload gate: it is accepted when the draw is at or above the drop
probability and overload-dropped otherwise, and in both cases its
fingerprint has been recorded. -/
theorem secocHandle_valid_run
    (hmacFull : Bytes → Bytes) (fp : Bytes → Nat) (st : SecocState)
    (now : ℤ) (c r : ℚ) (msgS tag : Bytes)
    (hSlen : msgS.length = 56)
    (hf1 : now - (fromBytesBE (msgS.drop 48) : ℤ) ≤ 5)
    (hf2 : (fromBytesBE (msgS.drop 48) : ℤ) - now ≤ 5)
    (htag : (hmacFull (msgS.take 48 ++ msgS.drop 48)).take tag.length = tag)
    (hnew : fp (msgS.take 48 ++ msgS.drop 48 ++ tag) ∉ st.rset) :
    secocHandle hmacFull fp st now c r msgS tag =
      ((if r < compute_drop_prob c then SecocOutcome.overloadDrop
        else SecocOutcome.accepted),
       (record_replay st (fp (msgS.take 48 ++ msgS.drop 48 ++ tag))).2) := by
  have h48 : msgS.length - 8 = 48 := by omega
  have hnotshort : ¬ msgS.length < 56 := by omega
  have hlen48 : (msgS.take 48).length = 48 := by
    rw [List.length_take]; omega
  have hstale : ¬ (FRESHNESS_MAX_AGE <
      now - (fromBytesBE (msgS.drop 48) : ℤ)) := by
    unfold FRESHNESS_MAX_AGE; omega
  have hfuture : ¬ (FRESHNESS_FUTURE_TOL <
      (fromBytesBE (msgS.drop 48) : ℤ) - now) := by
    unfold FRESHNESS_FUTURE_TOL; omega
  simp only [secocHandle, hnotshort, if_false, h48, hstale, hfuture, htag,
    ne_eq, not_true_eq_false, hnew, hlen48]
  split_ifs <;> simp_all

/-- A SECOC envelope whose fingerprint is already cached is dropped as a
replay (and leaves the state unchanged), whatever the overload gate
draws, provided it is well formed, fresh and correctly tagged. -/
theorem secocHandle_replay_run
    (hmacFull : Bytes → Bytes) (fp : Bytes → Nat) (st : SecocState)
    (now : ℤ) (c r : ℚ) (msgS tag : Bytes)
    (hSlen : msgS.length = 56)
    (hf1 : now - (fromBytesBE (msgS.drop 48) : ℤ) ≤ 5)
    (hf2 : (fromBytesBE (msgS.drop 48) : ℤ) - now ≤ 5)
    (htag : (hmacFull (msgS.take 48 ++ msgS.drop 48)).take tag.length = tag)
    (hmem : fp (msgS.take 48 ++ msgS.drop 48 ++ tag) ∈ st.rset) :
    secocHandle hmacFull fp st now c r msgS tag = (.replayDrop, st) := by
  have h48 : msgS.length - 8 = 48 := by omega
  have hnotshort : ¬ msgS.length < 56 := by omega
  have hstale : ¬ (FRESHNESS_MAX_AGE <
      now - (fromBytesBE (msgS.drop 48) : ℤ)) := by
    unfold FRESHNESS_MAX_AGE; omega
  have hfuture : ¬ (FRESHNESS_FUTURE_TOL <
      (fromBytesBE (msgS.drop 48) : ℤ) - now) := by
    unfold FRESHNESS_FUTURE_TOL; omega
  simp only [secocHandle, hnotshort, if_false, h48, hstale, hfuture, htag,
    ne_eq, not_true_eq_false, hmem, if_true]

/-- The fingerprint just recorded by `record_replay` is in the new set. -/
theorem record_replay_mem (st : SecocState) (h : Nat) :
    h ∈ (record_replay st h).2.rset := by
  unfold record_replay
  by_cases hmem : h ∈ st.rset
  · simp [hmem]
  · simp [hmem]

/-- A fresh, unseen, correctly signed PQC envelope is accepted exactly
when the pre-admission gate admits it (queue not full), and in that case
its fingerprint is recorded; when the gate drops it, the cache is
untouched. -/
theorem pqcProcess_valid_run
    (verify : Bytes → Bytes → Bytes → Bool) (fpq : Bytes → Nat)
    (seen : Finset Nat) (now : ℤ) (c r : ℚ) (q victim : Nat)
    (msgP signature public_key : Bytes)
    (hPlen : 8 ≤ msgP.length)
    (hPfresh : |now - (fromBytesBE (msgP.drop (msgP.length - 8)) : ℤ)| ≤ 30)
    (hPsig : verify msgP signature public_key = true)
    (hPnew : fpq (msgP ++ signature) ∉ seen)
    (hq : q < MSG_QUEUE_MAXSIZE) :
    pqcProcess verify fpq seen now c r q victim msgP signature public_key =
      if pqcPreAdmissionDrop c r then (PqcResult.preDropped, seen)
      else (PqcResult.accepted,
            pqcRecordHash seen (fpq (msgP ++ signature)) victim) := by
  have hlen : (msgP.drop (msgP.length - 8)).length = 8 := by
    rw [List.length_drop]; omega
  have hnq : ¬ MSG_QUEUE_MAXSIZE ≤ q := by omega
  have hfresh : ¬ (30 <
      |now - (fromBytesBE (msgP.drop (msgP.length - 8)) : ℤ)|) := by omega
  unfold pqcProcess pqcHandleConnection
  split_ifs with hgate
  · rfl
  · simp only [hnq, if_false]
    simp only [pqcHandleMessage, hlen, ne_eq, not_true_eq_false, if_false,
      hfresh, hPnew, hPsig, if_true, not_false_eq_true]

/-- A PQC envelope whose fingerprint is already cached is never accepted:
either the gate pre-drops it or the worker drops it as a replay. -/
theorem pqcProcess_replay_run
    (verify : Bytes → Bytes → Bytes → Bool) (fpq : Bytes → Nat)
    (seen : Finset Nat) (now : ℤ) (c r : ℚ) (q victim : Nat)
    (msgP signature public_key : Bytes)
    (hmem : fpq (msgP ++ signature) ∈ seen) :
    (pqcProcess verify fpq seen now c r q victim msgP signature
        public_key).1 ≠ .accepted := by
  unfold pqcProcess pqcHandleConnection
  split_ifs <;> try simp
  simp only [pqcHandleMessage, hmem]
  split_ifs <;> simp

/-! ## C2: the identical valid envelope processed twice -/

/-- C2: the claim that processing an identical valid envelope twice gives
exactly one acceptance and one drop for all outcomes of the probabilistic
gates is false for the SECOC receiver: an all-zero fresh 56-byte message
with an empty (hence correctly verifying) tag is accepted under benign
gates, yet when the first copy meets CPU 120% with draw 0 it is
overload-dropped after its fingerprint was recorded, and the second copy
is then replay-dropped — zero acceptances in that outcome. -/
theorem c2_exactly_one_acceptance_counterexample :
    ((List.replicate 56 0 : Bytes).length = 56) ∧
    (secocHandle (fun _ => []) (fun _ => 0) ⟨[], ∅⟩ 0 0 (1/2)
        (List.replicate 56 0) []).1 = .accepted ∧
    (secocHandle (fun _ => []) (fun _ => 0) ⟨[], ∅⟩ 0 120 0
        (List.replicate 56 0) []).1 = .overloadDrop ∧
    (secocHandle (fun _ => []) (fun _ => 0)
        (secocHandle (fun _ => []) (fun _ => 0) ⟨[], ∅⟩ 0 120 0
          (List.replicate 56 0) []).2 0 0 (1/2)
        (List.replicate 56 0) []).1 = .replayDrop := by
  have hts : fromBytesBE ((List.replicate 56 0 : Bytes).drop 48) = 0 := by
    rfl
  have hrun := fun (c r : ℚ) =>
    secocHandle_valid_run (fun _ => []) (fun _ => 0) ⟨[], ∅⟩ 0 c r
      (List.replicate 56 0) [] (by simp) (by rw [hts]; norm_num)
      (by rw [hts]; norm_num) (by simp) (by simp)
  have hprob0 : ¬ ((1 : ℚ)/2 < compute_drop_prob 0) := by
    unfold compute_drop_prob MAX_DROP_PROB CPU_SCALE
    norm_num
  have hprob120 : (0 : ℚ) < compute_drop_prob 120 := by
    unfold compute_drop_prob MAX_DROP_PROB CPU_SCALE
    norm_num
  refine ⟨by simp, ?_, ?_, ?_⟩
  · rw [hrun 0 (1/2), if_neg hprob0]
  · rw [hrun 120 0, if_pos hprob120]
  · rw [hrun 120 0]
    exact congrArg Prod.fst
      (secocHandle_replay_run (fun _ => []) (fun _ => 0) _ 0 0 (1/2)
        (List.replicate 56 0) [] (by simp) (by rw [hts]; norm_num)
        (by rw [hts]; norm_num) (by simp) (record_replay_mem ⟨[], ∅⟩ 0))

/-- C2 (amended): processing the identical valid envelope twice results
in at most one acceptance (for the PQC receiver, provided its replay
cache is below its 2048-entry capacity, since at capacity the arbitrary
eviction may discard the new fingerprint itself), and exactly one
acceptance and one drop in every gate outcome that admits the first
envelope (with the PQC worker queue not full). -/
theorem c2_replay_single_acceptance
    (hmacFull : Bytes → Bytes) (fp : Bytes → Nat)
    (verify : Bytes → Bytes → Bytes → Bool) (fpq : Bytes → Nat)
    (st : SecocState) (seen : Finset Nat) (now : ℤ)
    (victim1 victim2 q1 q2 : Nat)
    (msgS tag msgP signature public_key : Bytes)
    (hSlen : msgS.length = 56)
    (hSf1 : now - (fromBytesBE (msgS.drop 48) : ℤ) ≤ 5)
    (hSf2 : (fromBytesBE (msgS.drop 48) : ℤ) - now ≤ 5)
    (hStag : (hmacFull (msgS.take 48 ++ msgS.drop 48)).take tag.length = tag)
    (hSnew : fp (msgS.take 48 ++ msgS.drop 48 ++ tag) ∉ st.rset)
    (hPlen : 8 ≤ msgP.length)
    (hPfresh : |now - (fromBytesBE (msgP.drop (msgP.length - 8)) : ℤ)| ≤ 30)
    (hPsig : verify msgP signature public_key = true)
    (hPnew : fpq (msgP ++ signature) ∉ seen)
    (hPcap : seen.card < MAX_HASHES)
    (hq1 : q1 < MSG_QUEUE_MAXSIZE) (_hq2 : q2 < MSG_QUEUE_MAXSIZE) :
    (∀ c1 r1 c2 r2 : ℚ,
      ¬ ((secocHandle hmacFull fp st now c1 r1 msgS tag).1 = .accepted ∧
         (secocHandle hmacFull fp
            (secocHandle hmacFull fp st now c1 r1 msgS tag).2
            now c2 r2 msgS tag).1 = .accepted)) ∧
    (∀ c1 r1 c2 r2 : ℚ, ¬ (r1 < compute_drop_prob c1) →
      (secocHandle hmacFull fp st now c1 r1 msgS tag).1 = .accepted ∧
      (secocHandle hmacFull fp
          (secocHandle hmacFull fp st now c1 r1 msgS tag).2
          now c2 r2 msgS tag).1 ≠ .accepted) ∧
    (∀ c1 r1 c2 r2 : ℚ,
      ¬ ((pqcProcess verify fpq seen now c1 r1 q1 victim1 msgP signature
            public_key).1 = .accepted ∧
         (pqcProcess verify fpq
            (pqcProcess verify fpq seen now c1 r1 q1 victim1 msgP signature
              public_key).2
            now c2 r2 q2 victim2 msgP signature public_key).1 =
          .accepted)) ∧
    (∀ c1 r1 c2 r2 : ℚ, pqcPreAdmissionDrop c1 r1 = false →
      (pqcProcess verify fpq seen now c1 r1 q1 victim1 msgP signature
          public_key).1 = .accepted ∧
      (pqcProcess verify fpq
          (pqcProcess verify fpq seen now c1 r1 q1 victim1 msgP signature
            public_key).2
          now c2 r2 q2 victim2 msgP signature public_key).1 ≠
        .accepted) := by
  have hSrun := fun (c r : ℚ) =>
    secocHandle_valid_run hmacFull fp st now c r msgS tag hSlen hSf1 hSf2
      hStag hSnew
  have hSsecond : ∀ c2 r2 : ℚ,
      (secocHandle hmacFull fp
        (record_replay st (fp (msgS.take 48 ++ msgS.drop 48 ++ tag))).2
        now c2 r2 msgS tag).1 = .replayDrop := by
    intro c2 r2
    exact congrArg Prod.fst
      (secocHandle_replay_run hmacFull fp _ now c2 r2 msgS tag hSlen hSf1
        hSf2 hStag (record_replay_mem st _))
  have hPrun := fun (c r : ℚ) =>
    pqcProcess_valid_run verify fpq seen now c r q1 victim1 msgP signature
      public_key hPlen hPfresh hPsig hPnew hq1
  have hPnopop : pqcRecordHash seen (fpq (msgP ++ signature)) victim1 =
      insert (fpq (msgP ++ signature)) seen := by
    unfold pqcRecordHash
    have : (insert (fpq (msgP ++ signature)) seen).card ≤ seen.card + 1 :=
      Finset.card_insert_le _ _
    have hle : ¬ (MAX_HASHES < (insert (fpq (msgP ++ signature)) seen).card) := by
      omega
    simp [hle]
  have hPsecond : ∀ c2 r2 : ℚ,
      (pqcProcess verify fpq (insert (fpq (msgP ++ signature)) seen) now c2
        r2 q2 victim2 msgP signature public_key).1 ≠ .accepted := by
    intro c2 r2
    exact pqcProcess_replay_run verify fpq _ now c2 r2 q2 victim2 msgP
      signature public_key (Finset.mem_insert_self _ _)
  refine ⟨?_, ?_, ?_, ?_⟩
  · intro c1 r1 c2 r2 ⟨h1, h2⟩
    rw [hSrun c1 r1] at h1 h2
    rw [hSsecond c2 r2] at h2
    exact absurd h2 (by simp)
  · intro c1 r1 c2 r2 hpass1
    rw [hSrun c1 r1]
    refine ⟨by simp [hpass1], ?_⟩
    rw [hSsecond c2 r2]
    simp
  · intro c1 r1 c2 r2 ⟨h1, h2⟩
    rw [hPrun c1 r1] at h1 h2
    by_cases hgate : pqcPreAdmissionDrop c1 r1
    · rw [if_pos hgate] at h1
      exact absurd h1 (by simp)
    · rw [if_neg hgate] at h2
      rw [hPnopop] at h2
      exact hPsecond c2 r2 h2
  · intro c1 r1 c2 r2 hgate
    rw [hPrun c1 r1, if_neg (by simp [hgate])]
    refine ⟨rfl, ?_⟩
    rw [hPnopop]
    exact hPsecond c2 r2

/-- Witness for C2 (amended): the all-zero 56-byte envelope with an empty
tag (SECOC) and a universally accepting verifier (PQC), gates admitting
the first copy. -/
theorem c2_replay_single_acceptance_witness :
    ((List.replicate 56 0 : Bytes).length = 56 ∧
      (0 : Nat) < MSG_QUEUE_MAXSIZE ∧ (0 : Nat) < MAX_HASHES) ∧
    ((secocHandle (fun _ => []) (fun _ => 0) ⟨[], ∅⟩ 0 0 (1/2)
        (List.replicate 56 0) []).1 = .accepted ∧
     (secocHandle (fun _ => []) (fun _ => 0)
        (secocHandle (fun _ => []) (fun _ => 0) ⟨[], ∅⟩ 0 0 (1/2)
          (List.replicate 56 0) []).2 0 0 (1/2)
        (List.replicate 56 0) []).1 ≠ .accepted) ∧
    ((pqcProcess (fun _ _ _ => true) (fun _ => 0) ∅ 0 0 (1/2) 0 0
        (List.replicate 56 0) [] []).1 = .accepted ∧
     (pqcProcess (fun _ _ _ => true) (fun _ => 0)
        (pqcProcess (fun _ _ _ => true) (fun _ => 0) ∅ 0 0 (1/2) 0 0
          (List.replicate 56 0) [] []).2 0 0 (1/2) 0 0
        (List.replicate 56 0) [] []).1 ≠ .accepted) := by
  have hts : fromBytesBE ((List.replicate 56 0 : Bytes).drop 48) = 0 := by
    rfl
  have H := c2_replay_single_acceptance (fun _ => []) (fun _ => 0)
    (fun _ _ _ => true) (fun _ => 0) ⟨[], ∅⟩ ∅ 0 0 0 0 0
    (List.replicate 56 0) [] (List.replicate 56 0) [] []
    (by simp) (by rw [hts]; norm_num) (by rw [hts]; norm_num) (by simp)
    (by simp) (by simp) (by decide) rfl (by simp)
    (by simp [MAX_HASHES]) (by simp [MSG_QUEUE_MAXSIZE])
    (by simp [MSG_QUEUE_MAXSIZE])
  have hpassS : ¬ ((1 : ℚ)/2 < compute_drop_prob 0) := by
    unfold compute_drop_prob MAX_DROP_PROB CPU_SCALE
    norm_num
  have hpassP : pqcPreAdmissionDrop 0 (1/2) = false := by
    unfold pqcPreAdmissionDrop CPU_LIMIT DROP_PROB_BASE
    norm_num
  exact ⟨⟨by simp, by simp [MSG_QUEUE_MAXSIZE], by simp [MAX_HASHES]⟩,
    H.2.1 0 (1/2) 0 (1/2) hpassS, H.2.2.2 0 (1/2) 0 (1/2) hpassP⟩

/-! ## C3: a zero-length tag passes SECOC authentication -/

/-- C3: for every well-formed (56-byte), fresh, non-replayed message, an
envelope carrying a zero-length tag passes the SECOC receiver's HMAC
verification — the HMAC truncated to length 0 equals the empty received
tag — so the envelope is either accepted or overload-dropped, never
rejected for authentication. -/
theorem c3_zero_length_tag_passes
    (hmacFull : Bytes → Bytes) (fp : Bytes → Nat) (st : SecocState)
    (now : ℤ) (cpu rand : ℚ) (message : Bytes)
    (hlen : message.length = 56)
    (hf1 : now - (fromBytesBE (message.drop 48) : ℤ) ≤ 5)
    (hf2 : (fromBytesBE (message.drop 48) : ℤ) - now ≤ 5)
    (hnew : fp (message.take 48 ++ message.drop 48 ++ []) ∉ st.rset) :
    (secocHandle hmacFull fp st now cpu rand message []).1 = .accepted ∨
    (secocHandle hmacFull fp st now cpu rand message []).1 =
      .overloadDrop := by
  have H := secocHandle_valid_run hmacFull fp st now cpu rand message []
    hlen hf1 hf2 (by simp) hnew
  rw [H]
  by_cases hd : rand < compute_drop_prob cpu
  · right; simp [hd]
  · left; simp [hd]

/-- Witness for C3 at the all-zero 56-byte message, benign gate. -/
theorem c3_zero_length_tag_passes_witness :
    ((List.replicate 56 0 : Bytes).length = 56) ∧
    ((secocHandle (fun _ => []) (fun _ => 0) ⟨[], ∅⟩ 0 0 (1/2)
        (List.replicate 56 0) []).1 = .accepted ∨
     (secocHandle (fun _ => []) (fun _ => 0) ⟨[], ∅⟩ 0 0 (1/2)
        (List.replicate 56 0) []).1 = .overloadDrop) := by
  have hts : fromBytesBE ((List.replicate 56 0 : Bytes).drop 48) = 0 := by
    rfl
  exact ⟨by simp,
    c3_zero_length_tag_passes (fun _ => []) (fun _ => 0) ⟨[], ∅⟩ 0 0 (1/2)
      (List.replicate 56 0) (by simp) (by rw [hts]; norm_num)
      (by rw [hts]; norm_num) (by simp)⟩

/-! ## Load Simulator reporting (`dos_simulator.summarize`) -/

/-- One Request Result as recorded by the Load Generator: only the
fields `summarize` reads.  `latency_ms` is optional to mirror
`r.get("latency_ms") is not None`. -/
structure ReqResult where
  success : Bool
  latency_ms : Option ℚ

/-- The list comprehension at line 251 of `dos_simulator.py`:
`[r["latency_ms"] for r in results if r["success"] and r.get("latency_ms") is not None]`. -/
def successLats (rs : List ReqResult) : List ℚ :=
  rs.filterMap (fun r => if r.success then r.latency_ms else none)

/-- `np.percentile(xs, q)` with the default linear-interpolation method:
sort ascending, take position `q/100 * (n-1)`, and interpolate linearly
between the two neighbouring order statistics. -/
def percentileLin (q : ℚ) (xs : List ℚ) : ℚ :=
  let s := List.insertionSort (· ≤ ·) xs
  let pos := q * ((s.length : ℚ) - 1) / 100
  let i := (⌊pos⌋).toNat
  let xi := s.getD i 0
  let xj := s.getD (i + 1) xi
  xi + (pos - (i : ℚ)) * (xj - xi)

/-- `statistics.mean`. -/
def rmean (xs : List ℚ) : ℚ := xs.sum / (xs.length : ℚ)

/-- The Run Summary fields computed by `summarize`. -/
structure RunSummary where
  total : Nat
  successes : Nat
  failures : Nat
  success_rate_pct : Option ℚ
  lat_p50_ms : Option ℚ
  lat_p90_ms : Option ℚ
  lat_p99_ms : Option ℚ
  lat_mean_ms : Option ℚ

/-- `summarize` (lines 250-264 of `dos_simulator.py`). -/
def summarize (rs : List ReqResult) : RunSummary :=
  let lat := successLats rs
  let total := rs.length
  let succ := (rs.filter (fun r => r.success)).length
  { total := total
    successes := succ
    failures := total - succ
    success_rate_pct :=
      if 0 < total then some ((succ : ℚ) / (total : ℚ) * 100) else none
    lat_p50_ms := if lat = [] then none else some (percentileLin 50 lat)
    lat_p90_ms := if lat = [] then none else some (percentileLin 90 lat)
    lat_p99_ms := if lat = [] then none else some (percentileLin 99 lat)
    lat_mean_ms := if lat = [] then none else some (rmean lat) }

/-- Auxiliary: the latency list `summarize` aggregates is exactly the
latencies of the successful attempts. -/
theorem successLats_eq_filter (rs : List ReqResult) :
    successLats rs =
      (rs.filter (fun r => r.success)).filterMap (fun r => r.latency_ms) := by
  induction rs with
  | nil => rfl
  | cons r rs ih =>
    by_cases h : r.success <;>
      cases hl : r.latency_ms <;>
        simp [successLats, List.filterMap_cons, List.filter_cons, h, hl] <;>
          simpa [successLats, hl] using ih

/-! ## C7: Run Summary latency fields -/

/-- C7: `summarize` computes p50/p90/p99 by linear-interpolation
percentiles and the mean over exactly the latencies of the successful
attempts; all four latency fields are absent when no successful attempt
exists; and a non-empty all-failure result set has success rate 0%. -/
theorem c7_summarize_spec (rs : List ReqResult) :
    ((summarize rs).lat_p50_ms =
        (if (rs.filter (fun r => r.success)).filterMap
              (fun r => r.latency_ms) = [] then none
         else some (percentileLin 50 ((rs.filter (fun r => r.success)).filterMap
            (fun r => r.latency_ms)))) ∧
      (summarize rs).lat_p90_ms =
        (if (rs.filter (fun r => r.success)).filterMap
              (fun r => r.latency_ms) = [] then none
         else some (percentileLin 90 ((rs.filter (fun r => r.success)).filterMap
            (fun r => r.latency_ms)))) ∧
      (summarize rs).lat_p99_ms =
        (if (rs.filter (fun r => r.success)).filterMap
              (fun r => r.latency_ms) = [] then none
         else some (percentileLin 99 ((rs.filter (fun r => r.success)).filterMap
            (fun r => r.latency_ms)))) ∧
      (summarize rs).lat_mean_ms =
        (if (rs.filter (fun r => r.success)).filterMap
              (fun r => r.latency_ms) = [] then none
         else some (rmean ((rs.filter (fun r => r.success)).filterMap
            (fun r => r.latency_ms))))) ∧
    ((∀ r ∈ rs, r.success = false) →
      (summarize rs).lat_p50_ms = none ∧ (summarize rs).lat_p90_ms = none ∧
      (summarize rs).lat_p99_ms = none ∧ (summarize rs).lat_mean_ms = none) ∧
    (rs ≠ [] → (∀ r ∈ rs, r.success = false) →
      (summarize rs).success_rate_pct = some 0) := by
  have hfilter := successLats_eq_filter rs
  refine ⟨?_, ?_, ?_⟩
  · simp [summarize, hfilter]
  · intro hfail
    have hnil : rs.filter (fun r => r.success) = [] := by
      rw [List.filter_eq_nil_iff]
      intro r hr
      simp [hfail r hr]
    simp [summarize, hfilter, hnil]
  · intro hne hfail
    have hnil : rs.filter (fun r => r.success) = [] := by
      rw [List.filter_eq_nil_iff]
      intro r hr
      simp [hfail r hr]
    have hpos : 0 < rs.length := List.length_pos.mpr hne
    simp [summarize, hnil, hpos]

/-- Witness for C7 at a one-element all-failure result list. -/
theorem c7_summarize_spec_witness :
    ([({ success := false, latency_ms := some 3 } : ReqResult)] ≠
        ([] : List ReqResult)) ∧
    (summarize [{ success := false, latency_ms := some 3 }]).lat_p50_ms =
        none ∧
    (summarize [{ success := false, latency_ms := some 3 }]).lat_mean_ms =
        none ∧
    (summarize [{ success := false, latency_ms := some 3 }]).success_rate_pct
        = some 0 := by
  have H := c7_summarize_spec [{ success := false, latency_ms := some 3 }]
  have hfail : ∀ r ∈ [({ success := false, latency_ms := some 3 } :
      ReqResult)], r.success = false := by
    intro r hr
    simp at hr
    simp [hr]
  have hne : [({ success := false, latency_ms := some 3 } : ReqResult)] ≠
      [] := by simp
  exact ⟨hne, (H.2.1 hfail).1, (H.2.1 hfail).2.2.2, H.2.2 hne hfail⟩

/-! ## Result Normalizer, bus-metrics-CSV mode (`normalize_results.normalize_can`) -/

/-- One row of the bus-metrics CSV: the columns `normalize_can` reads. -/
structure CanRow where
  timestamp : Option ℚ
  frame_id : ℤ

/-- The summary object built by `normalize_can` (fields the claim is
about; latency fields are hard-coded `None` in the source). -/
structure CanSummary where
  total : ℤ
  successes : ℤ
  failures : ℤ
  success_rate_pct : Option ℚ
  sample_count : Nat
  assumed_all_success : Bool

/-- One synthesized row of the normalizer's `requests.csv`. -/
structure CanReqRow where
  idx : ℤ
  ts : Option ℚ
  success : Bool
  latency_ms : String
  resp_len : String
  err : String

/-- `normalize_can` (lines 38-106 of `normalize_results.py`) restricted
to its pure output: the summary and the synthesized request rows.
`df['frame_id'].iloc[-1]` fails on an empty CSV, hence the `Option`. -/
def normalize_can (rows : List CanRow)
    (total_frames successes_in : Option ℤ) :
    Option (CanSummary × List CanReqRow) :=
  match rows.getLast? with
  | none => none
  | some lastRow =>
    let total := total_frames.getD lastRow.frame_id
    let successes := successes_in.getD total
    let assumed := successes_in.isNone
    let failures := total - successes
    let success_rate : Option ℚ :=
      if 0 < total then some ((successes : ℚ) / (total : ℚ) * 100) else none
    some ({ total := total
            successes := successes
            failures := failures
            success_rate_pct := success_rate
            sample_count := rows.length
            assumed_all_success := assumed },
          rows.map (fun r =>
            { idx := r.frame_id
              ts := r.timestamp
              success := true
              latency_ms := ""
              resp_len := ""
              err := "" }))

/-! ## C8: Normalizer CSV mode on frame ids 0..999 -/

/-- Auxiliary: `normalize_can` with no overrides on a non-empty CSV,
expressed through its last row. -/
theorem normalize_can_getLast (rows : List CanRow) (lr : CanRow)
    (hg : rows.getLast? = some lr) :
    normalize_can rows none none =
      some ({ total := lr.frame_id
              successes := lr.frame_id
              failures := lr.frame_id - lr.frame_id
              success_rate_pct :=
                if 0 < lr.frame_id then
                  some ((lr.frame_id : ℚ) / (lr.frame_id : ℚ) * 100)
                else none
              sample_count := rows.length
              assumed_all_success := true },
            rows.map (fun r =>
              { idx := r.frame_id
                ts := r.timestamp
                success := true
                latency_ms := ""
                resp_len := ""
                err := "" })) := by
  unfold normalize_can
  rw [hg]
  simp

/-- C8: on a CSV whose `frame_id` column is 0..999 with no overrides,
`normalize_can` yields total 999, successes 999, failures 0,
`assumed_all_success` true, sample count 1000, and 1000 synthesized
request rows, each successful with blank latency, response-length and
error fields. -/
theorem c8_normalize_can_range1000 (rows : List CanRow)
    (hframes : rows.map (fun r => r.frame_id) =
      (List.range 1000).map Int.ofNat) :
    (normalize_can rows none none).map (fun p => p.1.total) = some 999 ∧
    (normalize_can rows none none).map (fun p => p.1.successes) =
      some 999 ∧
    (normalize_can rows none none).map (fun p => p.1.failures) = some 0 ∧
    (normalize_can rows none none).map
      (fun p => p.1.assumed_all_success) = some true ∧
    (normalize_can rows none none).map (fun p => p.1.sample_count) =
      some 1000 ∧
    (normalize_can rows none none).map (fun p => p.2.length) = some 1000 ∧
    (∀ p ∈ normalize_can rows none none, ∀ r ∈ p.2,
      r.success = true ∧ r.latency_ms = "" ∧ r.resp_len = "" ∧
      r.err = "") := by
  have hlen : rows.length = 1000 := by
    have := congrArg List.length hframes
    simpa using this
  have hmap999 : rows[999]?.map (fun r => r.frame_id) = some (999 : ℤ) := by
    rw [← List.getElem?_map, hframes, List.getElem?_map,
      List.getElem?_range (by norm_num : (999 : ℕ) < 1000)]
    rfl
  obtain ⟨lr, hg999, hfid⟩ :
      ∃ lr, rows[999]? = some lr ∧ lr.frame_id = 999 := by
    cases hg : rows[999]? with
    | none => rw [hg] at hmap999; exact absurd hmap999 (by simp)
    | some lr =>
      rw [hg] at hmap999
      exact ⟨lr, rfl, Option.some_injective _ hmap999⟩
  have hg : rows.getLast? = some lr := by
    rw [List.getLast?_eq_getElem?, hlen]
    exact hg999
  rw [normalize_can_getLast rows lr hg, hfid]
  refine ⟨rfl, rfl, by simp, rfl, by simp [hlen], by simp [hlen], ?_⟩
  intro p hp r hr
  simp only [Option.mem_def, Option.some_inj] at hp
  rw [← hp] at hr
  simp only [List.mem_map] at hr
  obtain ⟨row, _, hrow⟩ := hr
  rw [← hrow]
  exact ⟨rfl, rfl, rfl, rfl⟩

/-- Witness for C8 at the concrete CSV with frame ids 0..999 and no
timestamps. -/
theorem c8_normalize_can_range1000_witness :
    ((List.range 1000).map (fun i =>
        ({ timestamp := none, frame_id := Int.ofNat i } : CanRow))).map
      (fun r => r.frame_id) = (List.range 1000).map Int.ofNat ∧
    (normalize_can ((List.range 1000).map (fun i =>
        ({ timestamp := none, frame_id := Int.ofNat i } : CanRow))) none
      none).map (fun p => p.1.total) = some 999 ∧
    (normalize_can ((List.range 1000).map (fun i =>
        ({ timestamp := none, frame_id := Int.ofNat i } : CanRow))) none
      none).map (fun p => p.2.length) = some 1000 := by
  have hframes : ((List.range 1000).map (fun i =>
      ({ timestamp := none, frame_id := Int.ofNat i } : CanRow))).map
      (fun r => r.frame_id) = (List.range 1000).map Int.ofNat := by
    rw [List.map_map]
    have hcomp : ((fun r : CanRow => r.frame_id) ∘ fun i : ℕ =>
        ({ timestamp := none, frame_id := Int.ofNat i } : CanRow)) =
        Int.ofNat := funext (fun i => rfl)
    rw [hcomp]
  have H := c8_normalize_can_range1000 _ hframes
  exact ⟨hframes, H.1, H.2.2.2.2.2.1⟩

/-! ## Envelope framing (`recv_exact` in both receivers; senders frame with
2-byte big-endian length prefixes) -/

/-- `recv_exact(conn, n)`: read exactly `n` bytes from the stream, or
raise `ConnectionError` when the stream ends first.  The byte stream is
the concatenation of everything the peer sent before closing; the error
value is the raised `ConnectionError`. -/
def recvExact (n : Nat) (s : Bytes) : Except Unit (Bytes × Bytes) :=
  if s.length < n then Except.error ()
  else Except.ok (s.take n, s.drop n)

/-- One length-prefixed field as written by the senders:
`len(f).to_bytes(2, "big") + f`. -/
def frameField (f : Bytes) : Bytes :=
  toBytesBE2 f.length ++ f

/-- One length-prefixed field as read by the receivers: a 2-byte
big-endian length, then exactly that many bytes. -/
def readField (s : Bytes) : Except Unit (Bytes × Bytes) :=
  match recvExact 2 s with
  | .error e => .error e
  | .ok (hdr, r1) =>
    match recvExact (fromBytesBE hdr) r1 with
    | .error e => .error e
    | .ok (f, r2) => .ok (f, r2)

/-- The SECOC envelope read (`secoc_receiver_tcp.handle_connection`,
lines 85-91): message then tag. -/
def readSecocEnvelope (s : Bytes) :
    Except Unit ((Bytes × Bytes) × Bytes) :=
  match readField s with
  | .error e => .error e
  | .ok (message, r1) =>
    match readField r1 with
    | .error e => .error e
    | .ok (tag, r2) => .ok ((message, tag), r2)

/-- The PQC envelope read (`receiver_pqc.handle_connection`, lines
105-115): message, signature, then public key. -/
def readPqcEnvelope (s : Bytes) :
    Except Unit ((Bytes × Bytes × Bytes) × Bytes) :=
  match readField s with
  | .error e => .error e
  | .ok (message, r1) =>
    match readField r1 with
    | .error e => .error e
    | .ok (signature, r2) =>
      match readField r2 with
      | .error e => .error e
      | .ok (public_key, r3) => .ok ((message, signature, public_key), r3)

/-- Auxiliary: the 2-byte big-endian length prefix decodes to the length
it encodes, for lengths up to 65535. -/
theorem fromBytesBE_toBytesBE2 (n : Nat) (h : n ≤ 65535) :
    fromBytesBE (toBytesBE2 n) = n := by
  simp only [fromBytesBE, toBytesBE2, List.foldl_cons, List.foldl_nil]
  omega

/-- Auxiliary: a framed field is two bytes longer than the field. -/
theorem frameField_length (f : Bytes) :
    (frameField f).length = 2 + f.length := by
  simp [frameField, toBytesBE2]
  omega

/-- Auxiliary: reading a framed field off the front of a stream returns
the field and the remainder. -/
theorem readField_frame (f rest : Bytes) (h : f.length ≤ 65535) :
    readField (frameField f ++ rest) = .ok (f, rest) := by
  have hhdr : (toBytesBE2 f.length).length = 2 := by simp [toBytesBE2]
  have hassoc : frameField f ++ rest = toBytesBE2 f.length ++ (f ++ rest) := by
    simp [frameField]
  have hlen : ¬ (toBytesBE2 f.length ++ (f ++ rest)).length < 2 := by
    rw [List.length_append, hhdr]; omega
  have hflen : ¬ (f ++ rest).length < f.length := by
    rw [List.length_append]; omega
  rw [hassoc]
  simp only [readField, recvExact, hlen, if_false,
    List.take_left' hhdr, List.drop_left' hhdr,
    fromBytesBE_toBytesBE2 f.length h, hflen,
    List.take_left' (rfl : f.length = f.length),
    List.drop_left' (rfl : f.length = f.length)]

/-- Auxiliary: reading a framed field from a stream truncated inside the
field (or its length prefix) raises the transport error. -/
theorem readField_frame_truncated (f rest : Bytes) (k : Nat)
    (h : f.length ≤ 65535) (hk : k < (frameField f).length) :
    readField ((frameField f ++ rest).take k) = .error () := by
  have hflen := frameField_length f
  have hassoc : frameField f ++ rest = toBytesBE2 f.length ++ (f ++ rest) := by
    simp [frameField]
  have hhdr : (toBytesBE2 f.length).length = 2 := by simp [toBytesBE2]
  rcases Nat.lt_or_ge k 2 with hk2 | hk2
  · have hshort : ((frameField f ++ rest).take k).length < 2 := by
      rw [List.length_take]
      have : (frameField f ++ rest).length = (frameField f).length + rest.length :=
        List.length_append _ _
      omega
    simp only [readField, recvExact, hshort, if_true]
  · have htake : (frameField f ++ rest).take k =
        toBytesBE2 f.length ++ (f ++ rest).take (k - 2) := by
      rw [hassoc, List.take_append_eq_append_take, hhdr,
        List.take_of_length_le (by omega : (toBytesBE2 f.length).length ≤ k)]
    have hlen2 : ¬ (toBytesBE2 f.length ++ (f ++ rest).take (k - 2)).length < 2 := by
      rw [List.length_append, hhdr]; omega
    have hbody : ((f ++ rest).take (k - 2)).length < f.length := by
      rw [List.length_take, List.length_append]
      omega
    rw [htake]
    simp only [readField, recvExact, hlen2, if_false,
      List.take_left' hhdr, List.drop_left' hhdr,
      fromBytesBE_toBytesBE2 f.length h, hbody, if_true]

/-- Auxiliary: truncating a stream beyond a leading framed field leaves
the field readable and truncates only the remainder. -/
theorem readField_frame_take_ge (f rest : Bytes) (k : Nat)
    (h : f.length ≤ 65535) (hk : (frameField f).length ≤ k) :
    readField ((frameField f ++ rest).take k) =
      .ok (f, rest.take (k - (frameField f).length)) := by
  have htake : (frameField f ++ rest).take k =
      frameField f ++ rest.take (k - (frameField f).length) := by
    rw [List.take_append_eq_append_take, List.take_of_length_le hk]
  rw [htake, readField_frame f _ h]

/-! ## C9: envelope framing round-trip and truncation -/

/-- C9: for fields of at most 65535 bytes, framing with a 2-byte
big-endian length prefix and parsing with exact-length reads
reconstructs the original fields exactly, both for the PQC triple and
the SECOC pair; any stream truncated before the last field byte makes
the exact-length read raise the transport error instead of returning a
malformed field. -/
theorem c9_framing_roundtrip_truncation
    (m sg pk t : Bytes)
    (hm : m.length ≤ 65535) (hsg : sg.length ≤ 65535)
    (hpk : pk.length ≤ 65535) (ht : t.length ≤ 65535) :
    readPqcEnvelope (frameField m ++ frameField sg ++ frameField pk) =
      .ok ((m, sg, pk), []) ∧
    readSecocEnvelope (frameField m ++ frameField t) = .ok ((m, t), []) ∧
    (∀ k < (frameField m ++ frameField sg ++ frameField pk).length,
      readPqcEnvelope
        ((frameField m ++ frameField sg ++ frameField pk).take k) =
        .error ()) ∧
    (∀ k < (frameField m ++ frameField t).length,
      readSecocEnvelope ((frameField m ++ frameField t).take k) =
        .error ()) := by
  refine ⟨?_, ?_, ?_, ?_⟩
  · rw [List.append_assoc]
    simp only [readPqcEnvelope, readField_frame m _ hm]
    simp only [readField_frame sg _ hsg]
    have hpk2 : frameField pk = frameField pk ++ [] := (List.append_nil _).symm
    rw [hpk2, readField_frame pk [] hpk]
  · simp only [readSecocEnvelope, readField_frame m _ hm]
    have ht2 : frameField t = frameField t ++ [] := (List.append_nil _).symm
    rw [ht2, readField_frame t [] ht]
  · intro k hk
    rw [List.append_assoc]
    rcases Nat.lt_or_ge k (frameField m).length with h1 | h1
    · simp only [readPqcEnvelope,
        readField_frame_truncated m _ k hm h1]
    · simp only [readPqcEnvelope,
        readField_frame_take_ge m _ k hm h1]
      rcases Nat.lt_or_ge (k - (frameField m).length)
          (frameField sg).length with h2 | h2
      · simp only [readField_frame_truncated sg _ _ hsg h2]
      · simp only [readField_frame_take_ge sg _ _ hsg h2]
        have hpk2 : frameField pk = frameField pk ++ [] :=
          (List.append_nil _).symm
        have h3 : k - (frameField m).length - (frameField sg).length <
            (frameField pk).length := by
          rw [List.append_assoc, List.length_append, List.length_append]
            at hk
          omega
        rw [hpk2, readField_frame_truncated pk [] _ hpk h3]
  · intro k hk
    rcases Nat.lt_or_ge k (frameField m).length with h1 | h1
    · simp only [readSecocEnvelope,
        readField_frame_truncated m _ k hm h1]
    · simp only [readSecocEnvelope,
        readField_frame_take_ge m _ k hm h1]
      have ht2 : frameField t = frameField t ++ [] :=
        (List.append_nil _).symm
      have h2 : k - (frameField m).length < (frameField t).length := by
        rw [List.length_append] at hk
        omega
      rw [ht2, readField_frame_truncated t [] _ ht h2]

/-- Witness for C9 at the concrete fields [1,2], [3], [4,5,6] (PQC) and
[1,2], [7] (SECOC), including a truncation one byte short. -/
theorem c9_framing_roundtrip_truncation_witness :
    ([1, 2] : Bytes).length ≤ 65535 ∧
    readPqcEnvelope (frameField [1, 2] ++ frameField [3] ++
        frameField [4, 5, 6]) = .ok (([1, 2], [3], [4, 5, 6]), []) ∧
    readSecocEnvelope (frameField [1, 2] ++ frameField [7]) =
      .ok (([1, 2], [7]), []) ∧
    readPqcEnvelope ((frameField [1, 2] ++ frameField [3] ++
        frameField [4, 5, 6]).take 11) = .error () ∧
    readSecocEnvelope ((frameField [1, 2] ++ frameField [7]).take 6) =
      .error () := by
  have H := c9_framing_roundtrip_truncation [1, 2] [3] [4, 5, 6] [7]
    (by norm_num) (by norm_num) (by norm_num) (by norm_num)
  refine ⟨by norm_num, H.1, H.2.1, ?_, ?_⟩
  · exact H.2.2.1 11 (by simp [frameField, toBytesBE2])
  · exact H.2.2.2 6 (by simp [frameField, toBytesBE2])

/-! ## Run Analyzer (`analyze_runs.py`) -/

/-- The error raised by `load_run` when a run directory has no
`summary.json`. -/
inductive AnalyzeError
  | fileNotFound (folder : String)
  deriving DecidableEq, Repr

/-- A run directory as the Analyzer sees it: its name and the contents
of whichever of the three standard files exist.  Summary fields are
scalar key-value pairs; the two tables are row lists. -/
structure RunFolder where
  name : String
  summaryJson : Option (List (String × ℚ))
  systemCsv : Option (List (List ℚ))
  requestsCsv : Option (List (List ℚ))

/-- `load_run` (lines 8-20 of `analyze_runs.py`): raises
`FileNotFoundError` when `summary.json` is absent, otherwise returns the
summary plus the optional system and request tables. -/
def load_run (folder : RunFolder) :
    Except AnalyzeError
      ((List (String × ℚ)) × Option (List (List ℚ)) ×
        Option (List (List ℚ))) :=
  match folder.summaryJson with
  | none => .error (.fileNotFound folder.name)
  | some s => .ok (s, folder.systemCsv, folder.requestsCsv)

/-- `main` of `analyze_runs.py` (lines 99-117): loads both run
directories (an uncaught `FileNotFoundError` terminates the process
before anything is written), then writes the comparison CSV, the bar
chart, and — only when both system tables are present — the time-series
chart.  The result lists the artifacts written. -/
def analyzeMain (a b : RunFolder) : Except AnalyzeError (List String) :=
  match load_run a with
  | .error e => .error e
  | .ok ra =>
    match load_run b with
    | .error e => .error e
    | .ok rb =>
      .ok (["compare_summary.csv", "compare_bars.png"] ++
        (if ra.2.1.isSome && rb.2.1.isSome then ["compare_timeseries.png"]
         else []))

/-! ## C10: missing summary file is fatal and produces no artifacts -/

/-- C10: for every pair of run directories of which at least one lacks a
summary file, the Run Analyzer terminates with a file-not-found error
and writes none of its comparison artifacts. -/
theorem c10_missing_summary_fatal (a b : RunFolder)
    (h : a.summaryJson = none ∨ b.summaryJson = none) :
    (∃ f, analyzeMain a b = .error (.fileNotFound f)) ∧
    ∀ arts, analyzeMain a b ≠ .ok arts := by
  rcases h with ha | hb
  · refine ⟨⟨a.name, ?_⟩, ?_⟩ <;>
      simp [analyzeMain, load_run, ha]
  · cases hsa : a.summaryJson with
    | none =>
      refine ⟨⟨a.name, ?_⟩, ?_⟩ <;>
        simp [analyzeMain, load_run, hsa]
    | some s =>
      refine ⟨⟨b.name, ?_⟩, ?_⟩ <;>
        simp [analyzeMain, load_run, hsa, hb]

/-- Witness for C10 at a pair of concrete folders, the second lacking a
summary. -/
theorem c10_missing_summary_fatal_witness :
    (({ name := "b", summaryJson := none, systemCsv := none,
        requestsCsv := none } : RunFolder).summaryJson = none ∨
      (({ name := "b", summaryJson := none, systemCsv := none,
          requestsCsv := none } : RunFolder)).summaryJson = none) ∧
    (∃ f, analyzeMain
        { name := "a", summaryJson := some [], systemCsv := none,
          requestsCsv := none }
        { name := "b", summaryJson := none, systemCsv := none,
          requestsCsv := none } = .error (.fileNotFound f)) ∧
    ∀ arts, analyzeMain
        { name := "a", summaryJson := some [], systemCsv := none,
          requestsCsv := none }
        { name := "b", summaryJson := none, systemCsv := none,
          requestsCsv := none } ≠ .ok arts := by
  have H := c10_missing_summary_fatal
    { name := "a", summaryJson := some [], systemCsv := none,
      requestsCsv := none }
    { name := "b", summaryJson := none, systemCsv := none,
      requestsCsv := none } (Or.inr rfl)
  exact ⟨Or.inl rfl, H.1, H.2⟩

end DosEval
